import Mathlib

/-!
Shallow embedding of `src/kemp_brdy_engine.py` (class `KempBrdyEngine`).

The chess-rules engine (python-chess) is an external collaborator per the
spec; it is modelled as an abstract `Rules` interface over an opaque board
type `B`.  Its contracts (a parsed SAN token is a legal move, `pop` undoes
`push`, `random.shuffle` permutes its list) enter theorems as hypotheses.
Python floats are modelled by rationals; the random sources
(`random.choice`, `random.uniform`, `random.shuffle`) are modelled by an
explicit `Rng` oracle record; wall-clock elapsed time at the budget check
is an explicit rational input.
-/

namespace KempBrdy

inductive Color
  | white
  | black
deriving DecidableEq

inductive PieceType
  | pawn
  | knight
  | bishop
  | rook
  | queen
  | king
deriving DecidableEq

/-- `chess.Piece`: a piece type together with a color. -/
structure Piece where
  pieceType : PieceType
  color : Color
deriving DecidableEq

/-- `chess.Move`: origin square, destination square, optional promotion.
Squares are 0..63 as in python-chess (`square = rank*8 + file`). -/
structure Move where
  fromSq : Nat
  toSq : Nat
  promotion : Option PieceType
deriving DecidableEq

/-- The Position Adapter interface the engine consumes (python-chess
`Board` operations used by `KempBrdyEngine`), over an opaque board type. -/
structure Rules (B : Type) where
  push : B → Move → B
  pop : B → B
  isCheckmate : B → Bool
  isCheck : B → Bool
  pieceAt : B → Nat → Option Piece
  legalMoves : B → List Move
  pieceMap : B → List (Nat × Piece)
  turn : B → Color
  moveStackLen : B → Nat
  parseSan : B → String → Option Move

/-- Engine configuration set in `__init__`: `difficulty` and `time_limit`. -/
structure EngineConfig where
  difficulty : ℤ
  timeLimit : ℚ

/-- Oracle for the random sources used in one `get_move` call:
`random.choice` over opening lines (`lineIdx`), `random.uniform(-5,5)`
draw per evaluated move (`noise`), `random.shuffle` (`shuffle`), and
`random.choice` over legal moves in the time-out fallback (`fallbackIdx`). -/
structure Rng where
  lineIdx : Nat
  noise : Move → ℚ
  shuffle : List (ℚ × Move) → List (ℚ × Move)
  fallbackIdx : Nat

/-- `self.tactical_weights` dictionary from `__init__`. -/
def tacticalWeights (k : String) : Option ℚ :=
  if k = "check" then some (8/10)
  else if k = "checkmate" then some 1
  else if k = "capture_queen" then some (9/10)
  else if k = "capture_bishop" then some (7/10)
  else if k = "capture_knight" then some (7/10)
  else if k = "castling" then some (6/10)
  else if k = "development" then some (8/10)
  else if k = "center_control" then some (7/10)
  else if k = "aggression" then some (9/10)
  else none

/-- `self.opening_repertoire['white']`. -/
def openingRepertoireWhite : List (List String) :=
  [["e3", "e5", "Bc4", "Nc6", "Qf3", "Nf6"],
   ["e4", "e6", "Nf3", "d5", "exd5", "Qxd5"],
   ["e3", "e5", "Bc4", "d5", "Bb3", "Nf6"],
   ["e3", "g6", "Bc4", "Bg7", "Qf3", "e6"],
   ["e3", "d5", "c4", "e6", "cxd5", "exd5"]]

/-- `self.opening_repertoire['black']`. -/
def openingRepertoireBlack : List (List String) :=
  [["e4", "e6", "Nf3", "d5", "exd5", "Qxd5"],
   ["e4", "c5", "Nf3", "d6", "d4", "cxd4"],
   ["e4", "c6", "d4", "d5", "exd5", "cxd5"]]

/-- `chess.square_rank`. -/
def squareRank (sq : Nat) : Nat := sq / 8

/-- `_get_piece_value`: pawn 1, knight 3, bishop 3, rook 5, queen 9, king 0. -/
def get_piece_value (p : Piece) : ℤ :=
  match p.pieceType with
  | .pawn => 1
  | .knight => 3
  | .bishop => 3
  | .rook => 5
  | .queen => 9
  | .king => 0

/-- `_get_piece_type`: name of the capture category for the weight table. -/
def get_piece_type (p : Piece) : String :=
  match p.pieceType with
  | .pawn => "capture_pawn"
  | .knight => "capture_knight"
  | .bishop => "capture_bishop"
  | .rook => "capture_rook"
  | .queen => "capture_queen"
  | .king => "capture_king"

/-- `_is_development_move(board, move)`: the board passed is whatever board
the caller supplies (in `_evaluate_move` it is the post-push board). -/
def is_development_move {B : Type} (rules : Rules B) (b : B) (m : Move) : Bool :=
  match rules.pieceAt b m.fromSq with
  | none => false
  | some p =>
    if p.pieceType = PieceType.knight ∨ p.pieceType = PieceType.bishop then
      if p.color = Color.white ∧ (m.fromSq = 1 ∨ m.fromSq = 2 ∨ m.fromSq = 5 ∨ m.fromSq = 6) then
        true
      else if p.color = Color.black ∧ (m.fromSq = 57 ∨ m.fromSq = 58 ∨ m.fromSq = 61 ∨ m.fromSq = 62) then
        true
      else false
    else false

/-- `_controls_center`: d4 = 27, e4 = 28, d5 = 35, e5 = 36. -/
def controls_center (sq : Nat) : Bool :=
  decide (sq = 27 ∨ sq = 28 ∨ sq = 35 ∨ sq = 36)

/-- `_is_aggressive_move(board, move)`: reads `board.turn` of the board it
is given (in `_evaluate_move` that is the post-push board). -/
def is_aggressive_move {B : Type} (rules : Rules B) (b : B) (m : Move) : Bool :=
  if rules.turn b = Color.white then
    decide (squareRank m.toSq > squareRank m.fromSq)
  else
    decide (squareRank m.toSq < squareRank m.fromSq)

/-- Loop body of `_evaluate_material`. -/
def materialStep (acc : ℤ) (sp : Nat × Piece) : ℤ :=
  if sp.2.color = Color.white then acc + get_piece_value sp.2
  else acc - get_piece_value sp.2

/-- `_evaluate_material`: white piece values added, black subtracted. -/
def evaluate_material {B : Type} (rules : Rules B) (b : B) : ℚ :=
  (((rules.pieceMap b).foldl materialStep 0 : ℤ) : ℚ)

/-- `_evaluate_position`: +10 when not in check, +0.5 per legal move. -/
def evaluate_position {B : Type} (rules : Rules B) (b : B) : ℚ :=
  (if rules.isCheck b then 0 else 10) + ((rules.legalMoves b).length : ℚ) * (1/2)

/-- Capture block of `_evaluate_move` (lines 153-162): looks up
`board.piece_at(move.to_square)` on the board it is given — in
`_evaluate_move` this is the post-push board. -/
def capture_term {B : Type} (rules : Rules B) (b : B) (m : Move) : ℚ :=
  match rules.pieceAt b m.toSq with
  | none => 0
  | some p =>
    match tacticalWeights (get_piece_type p) with
    | some w => w * ((get_piece_value p : ℤ) : ℚ) * 10
    | none => ((get_piece_value p : ℤ) : ℚ) * 5

/-- Non-checkmate body of the `try` block of `_evaluate_move`, evaluated
on the post-push board `b`. -/
def bodyScore {B : Type} (rules : Rules B) (b : B) (m : Move) : ℚ :=
  (if rules.isCheck b then (tacticalWeights "check").getD 0 * 50 else 0)
  + capture_term rules b m
  + (if is_development_move rules b m then (tacticalWeights "development").getD 0 * 15 else 0)
  + (if controls_center m.toSq then (tacticalWeights "center_control").getD 0 * 10 else 0)
  + (if (m.fromSq = 4 ∨ m.fromSq = 60) ∧ (m.toSq = 6 ∨ m.toSq = 2 ∨ m.toSq = 62 ∨ m.toSq = 58) then
       (tacticalWeights "castling").getD 0 * 20 else 0)
  + (if is_aggressive_move rules b m then (tacticalWeights "aggression").getD 0 * 12 else 0)
  + (match rules.pieceAt b m.fromSq with
     | some p => if p.pieceType = PieceType.queen then 8 + (if controls_center m.toSq then (5:ℚ) else 0) else 0
     | none => 0)
  + evaluate_material rules b
  + evaluate_position rules b

/-- The early-return value of `_evaluate_move` on checkmate. -/
def mateScore : ℚ := 1000 + (tacticalWeights "checkmate").getD 0 * 100

/-- `_evaluate_move`: push, score (early return on checkmate, which skips
the noise line 196), pop in `finally`, add noise.  `u` is the
`random.uniform(-5, 5)` draw.  Returns the score and the board after the
call (modelling the in-place mutation). -/
def evaluate_move {B : Type} (rules : Rules B) (cfg : EngineConfig) (u : ℚ)
    (b : B) (m : Move) : ℚ × B :=
  let bp := rules.push b m
  let score :=
    if rules.isCheckmate bp then mateScore
    else bodyScore rules bp m + u * ((11 : ℚ) - (cfg.difficulty : ℚ))
  (score, rules.pop bp)

/-- The `push` / `try body finally pop` shape of `_evaluate_move` for an
arbitrary scoring body that may raise (`Except.error`): the `finally`
clause pops whether the body returns or raises. -/
def pushEvalPop {B E : Type} (rules : Rules B) (b : B) (m : Move)
    (body : B → Except E ℚ) : Except E ℚ × B :=
  let bp := rules.push b m
  (body bp, rules.pop bp)

/-- `_get_opening_move`: ply threshold 6, random line choice modelled by
`lineIdx`, SAN parse failure (`ValueError`) modelled by `parseSan = none`. -/
def get_opening_move {B : Type} (rules : Rules B) (lineIdx : Nat) (b : B) : Option Move :=
  let moveCount := rules.moveStackLen b
  if moveCount > 6 then none
  else
    let openings :=
      if rules.turn b = Color.white then openingRepertoireWhite else openingRepertoireBlack
    let chosen := openings.getD (lineIdx % openings.length) []
    match chosen[moveCount]? with
    | some tok => rules.parseSan b tok
    | none => none

/-- Insertion step of the stable descending sort modelling
`scored_moves.sort(reverse=True, key=lambda x: x[0])`: an element is
placed before strictly smaller scores and after earlier equal scores. -/
def insertDesc (x : ℚ × Move) : List (ℚ × Move) → List (ℚ × Move)
  | [] => [x]
  | y :: ys => if x.1 ≥ y.1 then x :: y :: ys else y :: insertDesc x ys

/-- Stable descending-by-score sort (the unique stable sort, hence equal
as a function to Python's Timsort with `reverse=True`). -/
def sortDesc : List (ℚ × Move) → List (ℚ × Move)
  | [] => []
  | x :: xs => insertDesc x (sortDesc xs)

/-- `_add_randomness`: return unchanged at difficulty ≥ 9, otherwise
shuffle the first five scored moves and append the rest. -/
def add_randomness (cfg : EngineConfig)
    (shuffle : List (ℚ × Move) → List (ℚ × Move))
    (scored : List (ℚ × Move)) : List (ℚ × Move) :=
  if cfg.difficulty ≥ 9 then scored
  else
    let _randomFactor : ℚ := ((10 : ℚ) - (cfg.difficulty : ℚ)) / 10
    let topMoves := shuffle (scored.take (min 5 scored.length))
    if scored.length > 5 then topMoves ++ scored.drop 5 else topMoves

/-- The scoring loop of `get_move` (lines 85-88), threading the board
through the push/pop mutations of `_evaluate_move`. -/
def scoreMoves {B : Type} (rules : Rules B) (cfg : EngineConfig) (noise : Move → ℚ) :
    B → List Move → List (ℚ × Move) × B
  | b, [] => ([], b)
  | b, m :: ms =>
    let r := evaluate_move rules cfg (noise m) b m
    let rest := scoreMoves rules cfg noise r.2 ms
    ((r.1, m) :: rest.1, rest.2)

/-- Lines 90-96 of `get_move`: stable descending sort, then the
randomness step — which the code guards with `difficulty < 7`. -/
def rank_and_randomize (cfg : EngineConfig)
    (shuffle : List (ℚ × Move) → List (ℚ × Move))
    (scored : List (ℚ × Move)) : List (ℚ × Move) :=
  let sorted := sortDesc scored
  if cfg.difficulty < 7 then add_randomness cfg shuffle sorted else sorted

/-- `get_move`: opening book, legal-move enumeration (none when empty),
scoring, ranking/randomization, selection, wall-clock budget check with
`random.choice` fallback.  `elapsed` models `time.time() - start_time` at
the budget check.  The `[]` match arm is unreachable when the shuffle
oracle permutes (in Python it would be an IndexError on `scored_moves[0]`). -/
def get_move {B : Type} (rules : Rules B) (cfg : EngineConfig) (rng : Rng)
    (elapsed : ℚ) (b : B) : Option Move × B :=
  match get_opening_move rules rng.lineIdx b with
  | some m => (some m, b)
  | none =>
    let legal := rules.legalMoves b
    if legal.isEmpty then (none, b)
    else
      let sm := scoreMoves rules cfg rng.noise b legal
      let final := rank_and_randomize cfg rng.shuffle sm.1
      match final with
      | [] => (none, sm.2)
      | best :: _ =>
        if elapsed > cfg.timeLimit then
          (legal[rng.fallbackIdx % legal.length]?, sm.2)
        else (some best.2, sm.2)

/-! ### Helper lemmas -/

lemma insertDesc_perm (x : ℚ × Move) (l : List (ℚ × Move)) :
    List.Perm (insertDesc x l) (x :: l) := by
  induction l with
  | nil => simp [insertDesc]
  | cons y ys ih =>
    simp only [insertDesc]
    split
    · exact List.Perm.refl _
    · exact (ih.cons y).trans (List.Perm.swap x y ys)

lemma sortDesc_perm (l : List (ℚ × Move)) : List.Perm (sortDesc l) l := by
  induction l with
  | nil => simp [sortDesc]
  | cons x xs ih => exact (insertDesc_perm x (sortDesc xs)).trans (ih.cons x)

lemma add_randomness_perm_aux (cfg : EngineConfig)
    (shuffle : List (ℚ × Move) → List (ℚ × Move))
    (hs : ∀ l, List.Perm (shuffle l) l) (l : List (ℚ × Move)) :
    List.Perm (add_randomness cfg shuffle l) l := by
  unfold add_randomness
  split
  · exact List.Perm.refl _
  · dsimp only
    by_cases h5 : l.length > 5
    · rw [if_pos h5, Nat.min_eq_left (Nat.le_of_lt h5)]
      exact ((hs (l.take 5)).append_right (l.drop 5)).trans
        (by rw [List.take_append_drop])
    · rw [if_neg h5, Nat.min_eq_right (Nat.le_of_not_lt h5), List.take_length]
      exact hs l

lemma rank_and_randomize_perm (cfg : EngineConfig)
    (shuffle : List (ℚ × Move) → List (ℚ × Move))
    (hs : ∀ l, List.Perm (shuffle l) l) (l : List (ℚ × Move)) :
    List.Perm (rank_and_randomize cfg shuffle l) l := by
  unfold rank_and_randomize
  dsimp only
  split
  · exact (add_randomness_perm_aux cfg shuffle hs (sortDesc l)).trans (sortDesc_perm l)
  · exact sortDesc_perm l

lemma scoreMoves_map_snd {B : Type} (rules : Rules B) (cfg : EngineConfig)
    (noise : Move → ℚ) (b : B) (ms : List Move) :
    ((scoreMoves rules cfg noise b ms).1).map Prod.snd = ms := by
  induction ms generalizing b with
  | nil => rfl
  | cons m ms ih => simp [scoreMoves, ih]

lemma get_opening_move_eq_some {B : Type} (rules : Rules B) (i : Nat) (b : B)
    (m : Move) (h : get_opening_move rules i b = some m) :
    ∃ s, rules.parseSan b s = some m := by
  unfold get_opening_move at h
  dsimp only at h
  split at h
  · exact absurd h (by simp)
  · split at h
    · exact ⟨_, h⟩
    · exact absurd h (by simp)

lemma tw_check : tacticalWeights "check" = some (8/10) := rfl

lemma tw_checkmate : tacticalWeights "checkmate" = some 1 := rfl

lemma tw_capture_queen : tacticalWeights "capture_queen" = some (9/10) := rfl

lemma tw_capture_bishop : tacticalWeights "capture_bishop" = some (7/10) := rfl

lemma tw_capture_knight : tacticalWeights "capture_knight" = some (7/10) := rfl

lemma tw_capture_pawn : tacticalWeights "capture_pawn" = none := rfl

lemma tw_capture_rook : tacticalWeights "capture_rook" = none := rfl

lemma tw_capture_king : tacticalWeights "capture_king" = none := rfl

lemma tw_castling : tacticalWeights "castling" = some (6/10) := rfl

lemma tw_development : tacticalWeights "development" = some (8/10) := rfl

lemma tw_center_control : tacticalWeights "center_control" = some (7/10) := rfl

lemma tw_aggression : tacticalWeights "aggression" = some (9/10) := rfl

lemma get_piece_value_nonneg (p : Piece) : 0 ≤ get_piece_value p := by
  obtain ⟨t, c⟩ := p
  cases t <;> simp [get_piece_value]

lemma get_piece_value_le (p : Piece) : get_piece_value p ≤ 9 := by
  obtain ⟨t, c⟩ := p
  cases t <;> simp [get_piece_value]

lemma materialStep_le (a : ℤ) (sp : Nat × Piece) : materialStep a sp ≤ a + 9 := by
  unfold materialStep
  split
  · have := get_piece_value_le sp.2
    omega
  · have := get_piece_value_nonneg sp.2
    omega

lemma foldl_materialStep_le (l : List (Nat × Piece)) :
    ∀ a : ℤ, l.foldl materialStep a ≤ a + 9 * l.length := by
  induction l with
  | nil => intro a; simp
  | cons sp l ih =>
    intro a
    calc (sp :: l).foldl materialStep a = l.foldl materialStep (materialStep a sp) := rfl
      _ ≤ materialStep a sp + 9 * l.length := ih _
      _ ≤ (a + 9) + 9 * l.length := by have := materialStep_le a sp; omega
      _ ≤ a + 9 * (sp :: l).length := by simp; omega

lemma evaluate_material_le {B : Type} (rules : Rules B) (b : B) :
    evaluate_material rules b ≤ 9 * ((rules.pieceMap b).length : ℚ) := by
  unfold evaluate_material
  have h := foldl_materialStep_le (rules.pieceMap b) 0
  have : ((rules.pieceMap b).foldl materialStep 0 : ℤ) ≤ 9 * ((rules.pieceMap b).length : ℤ) := by omega
  exact_mod_cast this

lemma capture_term_le {B : Type} (rules : Rules B) (b : B) (m : Move) :
    capture_term rules b m ≤ 81 := by
  unfold capture_term
  cases hp : rules.pieceAt b m.toSq with
  | none => norm_num
  | some p =>
    obtain ⟨t, c⟩ := p
    cases t <;>
      norm_num [get_piece_type, get_piece_value, tw_capture_pawn, tw_capture_knight,
        tw_capture_bishop, tw_capture_rook, tw_capture_queen, tw_capture_king]

lemma bodyScore_le {B : Type} (rules : Rules B) (b : B) (m : Move) :
    bodyScore rules b m ≤
      879/5 + 9 * ((rules.pieceMap b).length : ℚ)
        + 10 + ((rules.legalMoves b).length : ℚ) * (1/2) := by
  unfold bodyScore
  have h1 : (if rules.isCheck b then (tacticalWeights "check").getD 0 * 50 else (0:ℚ)) ≤ 40 := by
    split <;> norm_num [tw_check]
  have h2 := capture_term_le rules b m
  have h3 : (if is_development_move rules b m then (tacticalWeights "development").getD 0 * 15 else (0:ℚ)) ≤ 12 := by
    split <;> norm_num [tw_development]
  have h4 : (if controls_center m.toSq then (tacticalWeights "center_control").getD 0 * 10 else (0:ℚ)) ≤ 7 := by
    split <;> norm_num [tw_center_control]
  have h5 : (if (m.fromSq = 4 ∨ m.fromSq = 60) ∧ (m.toSq = 6 ∨ m.toSq = 2 ∨ m.toSq = 62 ∨ m.toSq = 58) then
      (tacticalWeights "castling").getD 0 * 20 else (0:ℚ)) ≤ 12 := by
    split <;> norm_num [tw_castling]
  have h6 : (if is_aggressive_move rules b m then (tacticalWeights "aggression").getD 0 * 12 else (0:ℚ)) ≤ 54/5 := by
    split <;> norm_num [tw_aggression]
  have h7 : (match rules.pieceAt b m.fromSq with
     | some p => if p.pieceType = PieceType.queen then 8 + (if controls_center m.toSq then (5:ℚ) else 0) else 0
     | none => 0) ≤ 13 := by
    cases rules.pieceAt b m.fromSq with
    | none => norm_num
    | some p =>
      dsimp only
      split
      · split <;> norm_num
      · norm_num
  have h8 := evaluate_material_le rules b
  have h9 : evaluate_position rules b ≤ 10 + ((rules.legalMoves b).length : ℚ) * (1/2) := by
    unfold evaluate_position
    split <;> norm_num
  linarith

lemma isEmpty_eq_false_of_ne_nil {α : Type} {l : List α} (h : l ≠ []) :
    l.isEmpty = false := by
  cases hE : l.isEmpty
  · rfl
  · exact absurd (List.isEmpty_iff.mp hE) h

lemma get_move_spec {B : Type} (rules : Rules B) (cfg : EngineConfig) (rng : Rng)
    (elapsed : ℚ) (b : B) (hs : ∀ l, List.Perm (rng.shuffle l) l) :
    (∃ m, get_opening_move rules rng.lineIdx b = some m
        ∧ (get_move rules cfg rng elapsed b).1 = some m)
    ∨ (get_opening_move rules rng.lineIdx b = none ∧ rules.legalMoves b = []
        ∧ (get_move rules cfg rng elapsed b).1 = none)
    ∨ (get_opening_move rules rng.lineIdx b = none ∧ rules.legalMoves b ≠ []
        ∧ ((elapsed > cfg.timeLimit
              ∧ (get_move rules cfg rng elapsed b).1
                  = (rules.legalMoves b)[rng.fallbackIdx % (rules.legalMoves b).length]?)
            ∨ (¬ elapsed > cfg.timeLimit
              ∧ ∃ p, p ∈ (scoreMoves rules cfg rng.noise b (rules.legalMoves b)).1
                  ∧ (get_move rules cfg rng elapsed b).1 = some p.2))) := by
  cases hop : get_opening_move rules rng.lineIdx b with
  | some m =>
    refine Or.inl ⟨m, rfl, ?_⟩
    simp only [get_move, hop]
  | none =>
    by_cases hleg : rules.legalMoves b = []
    · refine Or.inr (Or.inl ⟨rfl, hleg, ?_⟩)
      simp [get_move, hop, hleg]
    · refine Or.inr (Or.inr ⟨rfl, hleg, ?_⟩)
      have hE := isEmpty_eq_false_of_ne_nil hleg
      have hperm := rank_and_randomize_perm cfg rng.shuffle hs
        (scoreMoves rules cfg rng.noise b (rules.legalMoves b)).1
      cases hf : rank_and_randomize cfg rng.shuffle
          (scoreMoves rules cfg rng.noise b (rules.legalMoves b)).1 with
      | nil =>
        exfalso
        rw [hf] at hperm
        have h0 : (scoreMoves rules cfg rng.noise b (rules.legalMoves b)).1 = [] :=
          List.perm_nil.mp hperm.symm
        have hmap := scoreMoves_map_snd rules cfg rng.noise b (rules.legalMoves b)
        rw [h0] at hmap
        simp at hmap
        exact hleg hmap
      | cons best rest =>
        by_cases ht : elapsed > cfg.timeLimit
        · refine Or.inl ⟨ht, ?_⟩
          simp [get_move, hop, hE, hf, ht]
        · refine Or.inr ⟨ht, best, ?_, ?_⟩
          · have hb : best ∈ rank_and_randomize cfg rng.shuffle
                (scoreMoves rules cfg rng.noise b (rules.legalMoves b)).1 := by
              rw [hf]
              exact List.mem_cons_self best rest
            exact hperm.mem_iff.mp hb
          · simp [get_move, hop, hE, hf, ht]

lemma foldl_materialStep_eq (l : List (Nat × Piece)) :
    ∀ a : ℤ, l.foldl materialStep a
      = a + ((l.filter (fun sp => sp.2.color == Color.white)).map
              (fun sp => get_piece_value sp.2)).sum
          - ((l.filter (fun sp => sp.2.color == Color.black)).map
              (fun sp => get_piece_value sp.2)).sum := by
  induction l with
  | nil => intro a; simp
  | cons sp l ih =>
    intro a
    have hstep := ih (materialStep a sp)
    rw [List.foldl_cons, hstep]
    cases hc : sp.2.color <;>
      simp [List.filter_cons, hc, materialStep] <;> omega

/-! ### Concrete boards and adapters used to instantiate the theorems -/

/-- A concrete observation-only board: it records exactly the queries the
evaluator makes of a (post-move) python-chess board. -/
structure OBoard where
  mateB : Bool
  checkB : Bool
  turnB : Color
  piecesB : List (Nat × Piece)
  legalB : List Move

/-- Adapter reading an `OBoard`; `push`/`pop` are the identity since the
instantiated facts only concern one fixed snapshot. -/
def obsRules : Rules OBoard :=
  { push := fun b _ => b
    pop := fun b => b
    isCheckmate := fun b => b.mateB
    isCheck := fun b => b.checkB
    pieceAt := fun b sq => (b.piecesB.find? (fun sp => sp.1 == sq)).map Prod.snd
    legalMoves := fun b => b.legalB
    pieceMap := fun b => b.piecesB
    turn := fun b => b.turnB
    moveStackLen := fun _ => 0
    parseSan := fun _ _ => none }

/-- e2-e4 (e2 = square 12, e4 = square 28). -/
def mvE2E4 : Move := Move.mk 12 28 none

/-- Ng1-f3 (g1 = square 6, f3 = square 21). -/
def mvNg1f3 : Move := Move.mk 6 21 none

/-- The post-push snapshot after e2-e4 from the starting position, as far
as the evaluator queries it: black to move, the just-moved white pawn on
e4, the origin square e2 empty (the other 31 pieces are irrelevant to the
facts instantiated on this board). -/
def postE4 : OBoard :=
  { mateB := false, checkB := false, turnB := Color.black
    piecesB := [(28, Piece.mk PieceType.pawn Color.white)], legalB := [] }

/-- The post-push snapshot after Ng1-f3 from the starting position: the
origin square g1 is empty, the knight sits on f3, black to move. -/
def postNf3 : OBoard :=
  { mateB := false, checkB := false, turnB := Color.black
    piecesB := [(21, Piece.mk PieceType.knight Color.white)], legalB := [] }

/-- The pre-push snapshot before Ng1-f3: the knight still on g1. -/
def preNf3 : OBoard :=
  { mateB := false, checkB := false, turnB := Color.white
    piecesB := [(6, Piece.mk PieceType.knight Color.white)], legalB := [] }

/-- A post-move board on which black has just moved (so the side to move
is white) holding a single white queen. -/
def queenBoard : OBoard :=
  { mateB := false, checkB := false, turnB := Color.white
    piecesB := [(0, Piece.mk PieceType.queen Color.white)], legalB := [] }

/-- Default configuration used in witnesses: difficulty 5, the 0.1-second
bullet time limit. -/
def cfgW : EngineConfig := EngineConfig.mk 5 (1/10)

/-- A mating-move marker board type: `push` records the move, and the
single move `mvNg1f3` is declared mating. -/
def mateRules : Rules (Option Move) :=
  { push := fun _ m => some m
    pop := fun _ => none
    isCheckmate := fun x => decide (x = some mvNg1f3)
    isCheck := fun _ => false
    pieceAt := fun _ _ => none
    legalMoves := fun _ => []
    pieceMap := fun _ => []
    turn := fun _ => Color.white
    moveStackLen := fun _ => 0
    parseSan := fun _ _ => none }

/-- Move-stack board: `push` conses, `pop` drops — the round-trip contract
holds definitionally. -/
def stackRules : Rules (List Move) :=
  { push := fun b m => m :: b
    pop := fun b => b.tail
    isCheckmate := fun _ => false
    isCheck := fun _ => false
    pieceAt := fun _ _ => none
    legalMoves := fun _ => []
    pieceMap := fun _ => []
    turn := fun _ => Color.white
    moveStackLen := fun b => b.length
    parseSan := fun _ _ => none }

/-- A terminal position: no legal moves, nothing parses. -/
def emptyRules : Rules Unit :=
  { push := fun b _ => b
    pop := fun b => b
    isCheckmate := fun _ => true
    isCheck := fun _ => true
    pieceAt := fun _ _ => none
    legalMoves := fun _ => []
    pieceMap := fun _ => []
    turn := fun _ => Color.white
    moveStackLen := fun _ => 0
    parseSan := fun _ _ => none }

/-- A position with two legal moves and no opening-book hit. -/
def twoMoveRules : Rules Unit :=
  { push := fun b _ => b
    pop := fun b => b
    isCheckmate := fun _ => false
    isCheck := fun _ => false
    pieceAt := fun _ _ => none
    legalMoves := fun _ => [mvE2E4, mvNg1f3]
    pieceMap := fun _ => []
    turn := fun _ => Color.white
    moveStackLen := fun _ => 0
    parseSan := fun _ _ => none }

/-- Rng used in witnesses: deterministic everything. -/
def rngW : Rng := Rng.mk 0 (fun _ => 0) id 0

/-! ### Claims -/

/-- C1: for every position with at least one legal move and every
configured difficulty in [1,10], `get_move` returns a move that is an
element of the position's legal moves; for a position with zero legal
moves it returns `none` — a returned value of the total function, never an
exception.  Adapter contracts assumed: a SAN token only parses to a legal
move of the position, and `random.shuffle` permutes its input list. -/
theorem get_move_legal {B : Type} (rules : Rules B) (cfg : EngineConfig) (rng : Rng)
    (elapsed : ℚ) (b : B)
    (hd1 : 1 ≤ cfg.difficulty) (hd2 : cfg.difficulty ≤ 10)
    (hparse : ∀ s m, rules.parseSan b s = some m → m ∈ rules.legalMoves b)
    (hs : ∀ l, List.Perm (rng.shuffle l) l) :
    (rules.legalMoves b ≠ [] →
      ∃ m, (get_move rules cfg rng elapsed b).1 = some m ∧ m ∈ rules.legalMoves b)
    ∧ (rules.legalMoves b = [] → (get_move rules cfg rng elapsed b).1 = none) := by
  have hmaster := get_move_spec rules cfg rng elapsed b hs
  constructor
  · intro hne
    rcases hmaster with ⟨m, hop, hres⟩ | ⟨_, hleg, _⟩ | ⟨_, _, hcase⟩
    · obtain ⟨s, hsan⟩ := get_opening_move_eq_some rules rng.lineIdx b m hop
      exact ⟨m, hres, hparse s m hsan⟩
    · exact absurd hleg hne
    · rcases hcase with ⟨_, hres⟩ | ⟨_, p, hp, hres⟩
      · have hlt : rng.fallbackIdx % (rules.legalMoves b).length < (rules.legalMoves b).length :=
          Nat.mod_lt _ (List.length_pos.mpr hne)
        exact ⟨(rules.legalMoves b)[rng.fallbackIdx % (rules.legalMoves b).length],
          by rw [hres, List.getElem?_eq_getElem hlt], List.getElem_mem hlt⟩
      · refine ⟨p.2, hres, ?_⟩
        have hmap := scoreMoves_map_snd rules cfg rng.noise b (rules.legalMoves b)
        rw [← hmap]
        exact List.mem_map_of_mem _ hp
  · intro hleg
    rcases hmaster with ⟨m, hop, _⟩ | ⟨_, _, hres⟩ | ⟨_, hne, _⟩
    · obtain ⟨s, hsan⟩ := get_opening_move_eq_some rules rng.lineIdx b m hop
      have hmem := hparse s m hsan
      rw [hleg] at hmem
      exact absurd hmem (List.not_mem_nil m)
    · exact hres
    · exact absurd hleg hne

/-- C1 witness: the terminal (zero-legal-move) position, where the claim's
second conjunct applies and the call returns `none`. -/
theorem get_move_legal_witness :
    (get_move emptyRules cfgW rngW 0 ()).1 = none :=
  (get_move_legal emptyRules cfgW rngW 0 () (by decide) (by decide)
      (fun s m h => by simp [emptyRules] at h)
      (fun l => List.Perm.refl l)).2 rfl

/-- C2: a move whose application yields checkmate is scored at the constant
dominance value 1000 + checkmate_weight × 100, and with the random
perturbation fixed to zero this is strictly above the score of any move
whose application does not yield checkmate.  The bounds are those of a
legal chess position: at most 32 pieces and at most 218 legal moves on the
post-move board. -/
theorem checkmate_dominates {B : Type} (rules : Rules B) (cfg : EngineConfig)
    (b : B) (m1 m2 : Move)
    (h1 : rules.isCheckmate (rules.push b m1) = true)
    (h2 : rules.isCheckmate (rules.push b m2) = false)
    (hpieces : ((rules.pieceMap (rules.push b m2)).length : ℚ) ≤ 32)
    (hmob : ((rules.legalMoves (rules.push b m2)).length : ℚ) ≤ 218) :
    (evaluate_move rules cfg 0 b m1).1 = 1000 + (tacticalWeights "checkmate").getD 0 * 100
    ∧ (evaluate_move rules cfg 0 b m2).1 < (evaluate_move rules cfg 0 b m1).1 := by
  have hbody := bodyScore_le rules (rules.push b m2) m2
  have hms : mateScore = 1100 := by norm_num [mateScore, tw_checkmate]
  constructor
  · simp [evaluate_move, h1, mateScore]
  · simp only [evaluate_move, h1, h2]
    simp only [if_true, Bool.false_eq_true, if_false, zero_mul, add_zero]
    rw [hms]
    linarith

/-- C2 witness: on the marker adapter, the declared mating move scores 1100
and strictly outranks a non-mating move. -/
theorem checkmate_dominates_witness :
    (evaluate_move mateRules cfgW 0 none mvNg1f3).1
        = 1000 + (tacticalWeights "checkmate").getD 0 * 100
    ∧ (evaluate_move mateRules cfgW 0 none mvE2E4).1
        < (evaluate_move mateRules cfgW 0 none mvNg1f3).1 :=
  checkmate_dominates mateRules cfgW none mvNg1f3 mvE2E4
    (by decide) (by decide) (by norm_num [mateRules]) (by norm_num [mateRules])

/-- C3: evaluating a move leaves the position identical to its state
before the evaluation, given the adapter contract that `pop` undoes
`push`; the second conjunct covers the `try/finally` shape for an
arbitrary scoring body that may raise, so the restoration also holds on
the early checkmate return and on any exception during scoring. -/
theorem evaluate_move_restores {B E : Type} (rules : Rules B) (cfg : EngineConfig)
    (u : ℚ) (b : B) (m : Move) (body : B → Except E ℚ)
    (hpp : ∀ b m, rules.pop (rules.push b m) = b) :
    (evaluate_move rules cfg u b m).2 = b ∧ (pushEvalPop rules b m body).2 = b := by
  constructor
  · simp [evaluate_move, hpp]
  · simp [pushEvalPop, hpp]

/-- C3 witness: on the move-stack adapter, whose `pop` is definitionally
the inverse of `push`, evaluation restores the empty stack. -/
theorem evaluate_move_restores_witness :
    (evaluate_move stackRules cfgW 0 [] mvE2E4).2 = []
    ∧ (pushEvalPop stackRules [] mvE2E4 (fun _ => (Except.ok (0:ℚ) : Except Unit ℚ))).2 = [] :=
  evaluate_move_restores stackRules cfgW 0 [] mvE2E4
    (fun _ => (Except.ok (0:ℚ) : Except Unit ℚ)) (fun _ _ => rfl)

/-- C10: `_add_randomness` returns a permutation of its input (so the
multiset of scored pairs is preserved: nothing dropped, duplicated or
invented), given the `random.shuffle` contract that the shuffle oracle
permutes its list. -/
theorem add_randomness_permutes (cfg : EngineConfig)
    (shuffle : List (ℚ × Move) → List (ℚ × Move)) (scored : List (ℚ × Move))
    (hs : ∀ l, List.Perm (shuffle l) l) :
    List.Perm (add_randomness cfg shuffle scored) scored :=
  add_randomness_perm_aux cfg shuffle hs scored

/-- C10 witness: with the reversing shuffle on a concrete two-element
list, the output is a permutation of the input. -/
theorem add_randomness_permutes_witness :
    List.Perm (add_randomness cfgW List.reverse [((1:ℚ), mvE2E4), ((2:ℚ), mvNg1f3)])
      [((1:ℚ), mvE2E4), ((2:ℚ), mvNg1f3)] :=
  add_randomness_permutes cfgW List.reverse [((1:ℚ), mvE2E4), ((2:ℚ), mvNg1f3)]
    (fun l => l.reverse_perm)

/-- C9: when the elapsed wall-clock time at the budget check exceeds
`time_limit` (the check is reached: the opening book missed and legal
moves exist), `get_move` discards the scored selection and returns the
`random.choice` fallback — the oracle-chosen element of the legal moves.
In particular it returns some legal move rather than failing, and every
legal move is attainable under a suitable draw of the fallback oracle. -/
theorem budget_exceeded_fallback {B : Type} (rules : Rules B) (cfg : EngineConfig)
    (rng : Rng) (elapsed : ℚ) (b : B)
    (hopen : get_opening_move rules rng.lineIdx b = none)
    (hne : rules.legalMoves b ≠ [])
    (hs : ∀ l, List.Perm (rng.shuffle l) l)
    (ht : elapsed > cfg.timeLimit) :
    (get_move rules cfg rng elapsed b).1
        = (rules.legalMoves b)[rng.fallbackIdx % (rules.legalMoves b).length]?
    ∧ (∃ m, (get_move rules cfg rng elapsed b).1 = some m ∧ m ∈ rules.legalMoves b)
    ∧ ∀ m, m ∈ rules.legalMoves b →
        ∃ k, (get_move rules cfg (Rng.mk rng.lineIdx rng.noise rng.shuffle k) elapsed b).1
              = some m := by
  have hres : (get_move rules cfg rng elapsed b).1
      = (rules.legalMoves b)[rng.fallbackIdx % (rules.legalMoves b).length]? := by
    rcases get_move_spec rules cfg rng elapsed b hs with
      ⟨m, hop, _⟩ | ⟨_, hleg, _⟩ | ⟨_, _, ⟨_, h⟩ | ⟨hnt, _⟩⟩
    · rw [hopen] at hop
      exact absurd hop (by simp)
    · exact absurd hleg hne
    · exact h
    · exact absurd ht hnt
  have hlt : rng.fallbackIdx % (rules.legalMoves b).length < (rules.legalMoves b).length :=
    Nat.mod_lt _ (List.length_pos.mpr hne)
  refine ⟨hres, ⟨(rules.legalMoves b)[rng.fallbackIdx % (rules.legalMoves b).length],
      by rw [hres, List.getElem?_eq_getElem hlt], List.getElem_mem hlt⟩, ?_⟩
  intro m hm
  obtain ⟨k, hk, hkeq⟩ := List.mem_iff_getElem.mp hm
  refine ⟨k, ?_⟩
  rcases get_move_spec rules cfg (Rng.mk rng.lineIdx rng.noise rng.shuffle k) elapsed b hs with
    ⟨m2, hop, _⟩ | ⟨_, hleg, _⟩ | ⟨_, _, ⟨_, h⟩ | ⟨hnt, _⟩⟩
  · rw [hopen] at hop
    exact absurd hop (by simp)
  · exact absurd hleg hne
  · rw [h, Nat.mod_eq_of_lt hk, List.getElem?_eq_getElem hk, hkeq]
  · exact absurd ht hnt

/-- C9 witness: on the two-move position with elapsed time 1 > 0.1, the
fallback element is returned. -/
theorem budget_exceeded_fallback_witness :
    (get_move twoMoveRules cfgW rngW 1 ()).1
      = (twoMoveRules.legalMoves ())[rngW.fallbackIdx % (twoMoveRules.legalMoves ()).length]? :=
  (budget_exceeded_fallback twoMoveRules cfgW rngW 1 () rfl (by decide)
      (fun l => List.Perm.refl l) (by norm_num [cfgW])).1

/-- C8 counterexample: the claim says the Randomize step (shuffle the top
five, append the rest) is performed whenever difficulty < 9; at the
concrete difficulty 7 with the reversing shuffle oracle and a concrete
two-move scored list, the pipeline's output differs from the output of
the Randomize step, so the step is not performed at difficulty 7 — the
code gates it with `difficulty < 7` (line 94), not `< 9`. -/
theorem randomize_skipped_at_difficulty_7 :
    rank_and_randomize (EngineConfig.mk 7 (1/10)) List.reverse
        [((1:ℚ), mvE2E4), ((2:ℚ), mvNg1f3)]
      ≠ add_randomness (EngineConfig.mk 7 (1/10)) List.reverse
        (sortDesc [((1:ℚ), mvE2E4), ((2:ℚ), mvNg1f3)]) := by
  decide

/-- C8 amended: the Randomize step is performed exactly when the
configured difficulty is less than 7; for difficulty ≥ 7 the ranking is
the plain stable descending sort, independent of the shuffle oracle
(deterministic top pick). -/
theorem rank_and_randomize_threshold (cfg : EngineConfig)
    (shuffle1 shuffle2 : List (ℚ × Move) → List (ℚ × Move))
    (scored : List (ℚ × Move)) :
    (7 ≤ cfg.difficulty →
      rank_and_randomize cfg shuffle1 scored = sortDesc scored
      ∧ rank_and_randomize cfg shuffle1 scored = rank_and_randomize cfg shuffle2 scored)
    ∧ (cfg.difficulty < 7 →
      rank_and_randomize cfg shuffle1 scored = add_randomness cfg shuffle1 (sortDesc scored)) := by
  unfold rank_and_randomize
  dsimp only
  constructor
  · intro h7
    have hnot : ¬ cfg.difficulty < 7 := not_lt.mpr h7
    rw [if_neg hnot, if_neg hnot]
    exact ⟨rfl, rfl⟩
  · intro h7
    rw [if_pos h7]

/-- C8 amended witness: at difficulty 9 the ranking equals the plain sort
and does not depend on the shuffle oracle. -/
theorem rank_and_randomize_threshold_witness :
    rank_and_randomize (EngineConfig.mk 9 (1/10)) List.reverse
        [((1:ℚ), mvE2E4), ((2:ℚ), mvNg1f3)]
      = sortDesc [((1:ℚ), mvE2E4), ((2:ℚ), mvNg1f3)]
    ∧ rank_and_randomize (EngineConfig.mk 9 (1/10)) List.reverse
        [((1:ℚ), mvE2E4), ((2:ℚ), mvNg1f3)]
      = rank_and_randomize (EngineConfig.mk 9 (1/10)) id
        [((1:ℚ), mvE2E4), ((2:ℚ), mvNg1f3)] :=
  (rank_and_randomize_threshold (EngineConfig.mk 9 (1/10)) List.reverse id
    [((1:ℚ), mvE2E4), ((2:ℚ), mvNg1f3)]).1 (by norm_num)

/-- C4: the capture block reads `board.piece_at(move.to_square)` after
`board.push(move)`, when the destination square holds the piece that just
moved; so on the non-capturing move e2-e4 from the starting position
(nothing stood on e4 before the move, as `postE4` records: only the moved
pawn is there afterwards) the code still adds a capture term of
1 × 5 = 5, where the claim demands no capture term at all. -/
theorem capture_term_fires_without_capture :
    capture_term obsRules postE4 mvE2E4 = 5 := by
  norm_num [capture_term, obsRules, postE4, mvE2E4, List.find?,
    get_piece_type, get_piece_value, tw_capture_pawn]

/-- C5: `_is_development_move` is called on the post-push board, whose
origin square is always empty, so the development bonus can never fire:
after Ng1-f3 the code sees no piece on g1 and reports `false`, while the
same predicate on the pre-move snapshot (knight on its initial square g1)
reports `true` — the bonus the claim promises is never added. -/
theorem development_bonus_never_fires :
    is_development_move obsRules postNf3 mvNg1f3 = false
    ∧ is_development_move obsRules preNf3 mvNg1f3 = true := by
  constructor <;> rfl

/-- C6: `_is_aggressive_move` reads `board.turn` on the post-push board,
which is the opponent of the side that just moved, so the orientation test
is inverted: the advancing white move e2-e4 (rank 1 to rank 3) receives no
aggression bonus, while the retreating white move f3-g1 does. -/
theorem aggression_test_inverted :
    is_aggressive_move obsRules postE4 mvE2E4 = false
    ∧ is_aggressive_move obsRules postE4 (Move.mk 21 6 none) = true := by
  constructor <;> rfl

/-- The material term as claim C7 states it: the pieces of the side that
made the evaluated move contribute positively and the opponent's pieces
negatively.  This definition follows the claim's words, for comparison
with `evaluate_material` from the source. -/
def material_spec_for_mover {B : Type} (mover : Color) (rules : Rules B) (b : B) : ℚ :=
  (((rules.pieceMap b).foldl
    (fun acc sp => if sp.2.color = mover then acc + get_piece_value sp.2
      else acc - get_piece_value sp.2) 0 : ℤ) : ℚ)

/-- C7 counterexample: on a post-move board where black has just moved
(white to move) holding a single white queen, the code's material term is
+9 while the claim's mover-relative term for the black mover is −9 — the
code's term is not side-to-move-relative. -/
theorem material_not_mover_relative :
    evaluate_material obsRules queenBoard = 9
    ∧ material_spec_for_mover Color.black obsRules queenBoard = -9
    ∧ evaluate_material obsRules queenBoard
        ≠ material_spec_for_mover Color.black obsRules queenBoard := by
  refine ⟨rfl, rfl, ?_⟩
  rw [show evaluate_material obsRules queenBoard = 9 from rfl,
    show material_spec_for_mover Color.black obsRules queenBoard = (-9:ℚ) from rfl]
  norm_num

/-- C7 amended: the material term added by the evaluator is the
white-minus-black sum of piece material values on the (post-move) board,
independent of which side made the move; being computed on the post-move
board it reflects material after any capture. -/
theorem evaluate_material_white_minus_black {B : Type} (rules : Rules B) (b : B) :
    evaluate_material rules b =
      ((((rules.pieceMap b).filter (fun sp => sp.2.color == Color.white)).map
          (fun sp => get_piece_value sp.2)).sum
        - (((rules.pieceMap b).filter (fun sp => sp.2.color == Color.black)).map
          (fun sp => get_piece_value sp.2)).sum : ℤ) := by
  unfold evaluate_material
  rw [foldl_materialStep_eq]
  norm_num

end KempBrdy
